import Mathlib

/-!
Verification of `deploy_metrics_report.py` (samson_scripts).

Shallow embedding conventions:
* Timestamps are modelled as rationals (`ℚ`): both APIs deliver fixed-format
  UTC timestamps (tracker ones with microseconds), and the script only ever
  compares them and takes differences in seconds (`total_seconds()`), so a
  timestamp is an exact point on the rational time line.  Parsing is assumed
  to succeed, as the script assumes.
* The external HTTP APIs are modelled by the data they return: the paginated
  deploy search becomes a list of pages (`List (List Deploy)`), with every
  page past the end of the list empty, exactly the shape the pagination loops
  consume; the per-commit search and the compare/pull endpoints become
  functions from their query to the returned data.
* The generator `get_first_production_deploys_within_date_range` contains a
  busy-wait (`while to_date < created_at: continue`) that never terminates
  when it is entered.  The embedding makes this observable: the walk returns
  the records yielded before the busy-wait together with a `Bool` that is
  `true` iff the walk ran to completion (`false` = the script hangs forever).
* The generator reads `kwargs["from_date"]` / `kwargs["to_date"]` from the
  module-level dictionary rather than its parameters; when the script runs as
  `__main__` those hold exactly the values `main` passes in, so the embedding
  threads them as parameters.
-/

/-- A deploy record as returned by the deploy tracker (the fields the script
reads: `id`, `commit`, `previous_commit`, `created_at`, `updated_at`). -/
structure Deploy where
  id : Nat
  commit : String
  previous_commit : String
  created_at : ℚ
  updated_at : ℚ
  deriving DecidableEq

/-- Loop body of `Samson.get_first_deploy`: `first_deploy` starts as `None`;
while the current page is non-empty, `first_deploy = deploys[-1]` and the next
page is fetched; the candidate on hand when an empty page arrives is
returned. -/
def get_first_deploy_loop : List (List Deploy) → Option Deploy → Option Deploy
  | [], best => best
  | p :: rest, best => if p.isEmpty then best else get_first_deploy_loop rest p.getLast?

/-- Model of `Samson.get_first_deploy(git_sha, production)`: pages are the successive
results of `get_deploys_search` for that sha/environment. -/
def get_first_deploy (pages : List (List Deploy)) : Option Deploy :=
  get_first_deploy_loop pages none

lemma flatten_ne_nil_of_head {p : List Deploy} {rest : List (List Deploy)}
    (hp : p ≠ []) : (p :: rest).flatten ≠ [] := by
  simp only [List.flatten_cons, ne_eq, List.append_eq_nil]
  intro h
  exact hp h.1

lemma get_first_deploy_loop_eq (parts : List (List Deploy))
    (h : ∀ p ∈ parts, p ≠ []) (best : Option Deploy) :
    get_first_deploy_loop parts best =
      if parts = [] then best else parts.flatten.getLast? := by
  induction parts generalizing best with
  | nil => simp [get_first_deploy_loop]
  | cons p rest ih =>
    have hp : p ≠ [] := h p (List.mem_cons_self p rest)
    have hrest : ∀ q ∈ rest, q ≠ [] := fun q hq => h q (List.mem_cons_of_mem p hq)
    simp only [get_first_deploy_loop, List.isEmpty_iff, if_neg hp,
      reduceCtorEq, if_false]
    rw [ih hrest]
    by_cases hr : rest = []
    · subst hr
      simp
    · have hjoin : rest.flatten ≠ [] := by
        obtain ⟨q, rest', rfl⟩ := List.exists_cons_of_ne_nil hr
        exact flatten_ne_nil_of_head (hrest q (List.mem_cons_self q rest'))
      rw [if_neg hr, List.flatten_cons,
        List.getLast?_append_of_ne_nil p hjoin]

/-- C3. Earliest-deploy search: for any partition of the (descending) result
list into non-empty pages (every further page empty), `get_first_deploy`
returns the last element of the concatenated list — the globally oldest
matching deploy, independent of the page split — and returns `none` exactly
when there are no pages (the first page is already empty). -/
theorem get_first_deploy_page_split (parts : List (List Deploy))
    (h : ∀ p ∈ parts, p ≠ []) :
    get_first_deploy parts = parts.flatten.getLast? ∧
      (get_first_deploy parts = none ↔ parts = []) := by
  unfold get_first_deploy
  rw [get_first_deploy_loop_eq parts h]
  by_cases hp : parts = []
  · subst hp
    simp
  · rw [if_neg hp]
    refine ⟨rfl, ?_⟩
    have hjoin : parts.flatten ≠ [] := by
      obtain ⟨q, rest', rfl⟩ := List.exists_cons_of_ne_nil hp
      exact flatten_ne_nil_of_head (h q (List.mem_cons_self q rest'))
    simp [List.getLast?_eq_none_iff, hjoin, hp]

/-- Concrete deploys for the §8 scenario: one page of two deploys, descending
`updated_at` (`2024-01-02` then `2024-01-01`, as seconds-since-epoch). -/
def deployJan2 : Deploy := ⟨11, "abc123", "aaa", 1704153600, 1704153600⟩

def deployJan1 : Deploy := ⟨10, "abc123", "aaa", 1704067200, 1704067200⟩

/-- Witness for C3 at the spec scenario: one page `[Jan 2, Jan 1]`; the last
element of the page (the `2024-01-01` record) is returned, and the result is not
`none`. -/
theorem get_first_deploy_page_split_witness :
    get_first_deploy [[deployJan2, deployJan1]] =
        [[deployJan2, deployJan1]].flatten.getLast? ∧
      (get_first_deploy [[deployJan2, deployJan1]] = none ↔
        ([[deployJan2, deployJan1]] : List (List Deploy)) = []) :=
  get_first_deploy_page_split [[deployJan2, deployJan1]] (by decide)

/-- Digit run to number (`int(match.group(1))`-style reading of `\d+`). -/
def natOfDigits (ds : List Char) : Nat :=
  ds.foldl (fun a c => a * 10 + (c.toNat - '0'.toNat)) 0

/-- Model of `Github.PR_REGEX.match(message)`: the regex `Merge pull request #(\d+)`
anchored at the start of the string; group 1 is the maximal digit run after
the literal head, and the match requires at least one digit. -/
def pr_match (s : String) : Option Nat :=
  let cs := s.data
  let pat := "Merge pull request #".data
  if cs.take pat.length = pat then
    let ds := (cs.drop pat.length).takeWhile Char.isDigit
    if ds = [] then none else some (natOfDigits ds)
  else none

/-- One anchored attempt of the tail `\(#(\d+)\)` of `PR_SQUASH_REGEX` at the
head of `l`: succeeds iff `l` begins with `(#`, at least one digit, `)`. -/
def squashAt : List Char → Option Nat
  | '(' :: '#' :: rest =>
    let ds := rest.takeWhile Char.isDigit
    if ds ≠ [] ∧ (rest.dropWhile Char.isDigit).head? = some ')' then
      some (natOfDigits ds)
    else none
  | _ => none

/-- Backtracking of the greedy `.*` in `PR_SQUASH_REGEX`: the engine commits
to the latest position at which the tail `\(#(\d+)\)` matches, so the result
is the successful `squashAt` at the rightmost suffix, if any. -/
def lastSquash : List Char → Option Nat
  | [] => none
  | c :: rest =>
    match lastSquash rest with
    | some n => some n
    | none => squashAt (c :: rest)

/-- The first line of a message: `.` in the pattern does not cross `\n`, and
`match` anchors at position 0, so only text before the first newline is
visible to `PR_SQUASH_REGEX`. -/
def firstLine (cs : List Char) : List Char := cs.takeWhile (fun c => c ≠ '\n')

/-- Model of `Github.PR_SQUASH_REGEX.match(message)` with group 1 read as a
number. -/
def pr_squash_match (s : String) : Option Nat := lastSquash (firstLine s.data)

/-- Model of `Github.get_pull_requests_number`: for each commit message, in order,
yield the `PR_REGEX` group if it matches, then the `PR_SQUASH_REGEX` group if
it matches. -/
def get_pull_requests_number : List String → List Nat
  | [] => []
  | message :: rest =>
    (pr_match message).toList ++ (pr_squash_match message).toList ++
      get_pull_requests_number rest

/-- C5. Pull-request pattern matching: yields distribute over the message
list in order (each message contributes independently), a single message
contributes its Pattern-A number then its Pattern-B number, a message
matching both yields its number twice, and the spec scenario
`["Merge pull request #10 from x/y", "Fix bug (#11)"]` yields `[10, 11]`. -/
theorem get_pull_requests_number_spec :
    (∀ m₁ m₂ : List String,
      get_pull_requests_number (m₁ ++ m₂) =
        get_pull_requests_number m₁ ++ get_pull_requests_number m₂) ∧
    (∀ m : String,
      get_pull_requests_number [m] =
        (pr_match m).toList ++ (pr_squash_match m).toList) ∧
    get_pull_requests_number
        ["Merge pull request #10 from x/y", "Fix bug (#11)"] = [10, 11] ∧
    get_pull_requests_number ["Merge pull request #5 from a/b (#5)"] = [5, 5] := by
  refine ⟨?_, ?_, by decide, by decide⟩
  · intro m₁ m₂
    induction m₁ with
    | nil => simp [get_pull_requests_number]
    | cons m rest ih =>
      simp [get_pull_requests_number, ih]
  · intro m
    simp [get_pull_requests_number]

/-- Spec-side description of Pattern B, for C10: the numbers of the
occurrences of `(#N)` (open paren, hash, one-or-more digits, close paren) in
a character list, in left-to-right order of their starting position. -/
def squash_occurrences : List Char → List Nat
  | [] => []
  | c :: rest => (squashAt (c :: rest)).toList ++ squash_occurrences rest

lemma lastSquash_eq_occurrences (l : List Char) :
    lastSquash l = (squash_occurrences l).getLast? := by
  induction l with
  | nil => simp [lastSquash, squash_occurrences]
  | cons c rest ih =>
    simp only [lastSquash, squash_occurrences, List.getLast?_append]
    cases h : lastSquash rest with
    | some n => rw [ih] at h; simp [h]
    | none =>
      rw [ih] at h
      cases hs : squashAt (c :: rest) <;> simp [hs, h]

lemma firstLine_append_newline (a b : List Char) :
    firstLine (a ++ '\n' :: b) = firstLine a := by
  induction a with
  | nil => simp [firstLine]
  | cons c rest ih =>
    by_cases hc : c = '\n'
    · subst hc; simp [firstLine]
    · have h1 : firstLine (c :: rest ++ '\n' :: b) = c :: firstLine (rest ++ '\n' :: b) := by
        simp [firstLine, List.takeWhile_cons, hc]
      have h2 : firstLine (c :: rest) = c :: firstLine rest := by
        simp [firstLine, List.takeWhile_cons, hc]
      rw [h1, h2, ih]

/-- C10. Squash-pattern scope: Pattern B returns exactly the last `(#N)`
occurrence on the first line of the message (so it yields a number iff the
first line contains such an occurrence); any text after the first newline is
invisible to it, so a `(#N)` only on a later line never yields — e.g.
`"Fix bug\n(#7)"` yields nothing while `"Fix (#7) and (#8) bug"` yields the
last occurrence `8`. -/
theorem pr_squash_match_first_line_last_occurrence :
    (∀ s : String,
      pr_squash_match s = (squash_occurrences (firstLine s.data)).getLast?) ∧
    (∀ s : String,
      (pr_squash_match s).isSome ↔ squash_occurrences (firstLine s.data) ≠ []) ∧
    (∀ a b : String, pr_squash_match (a ++ "\n" ++ b) = pr_squash_match a) ∧
    pr_squash_match "Fix bug\n(#7)" = none ∧
    pr_squash_match "Fix (#7) and (#8) bug" = some 8 := by
  have hmain : ∀ s : String,
      pr_squash_match s = (squash_occurrences (firstLine s.data)).getLast? :=
    fun s => lastSquash_eq_occurrences (firstLine s.data)
  refine ⟨hmain, ?_, ?_, by decide, by decide⟩
  · intro s
    rw [hmain s, Option.isSome_iff_ne_none, ne_eq, List.getLast?_eq_none_iff]
  · intro a b
    unfold pr_squash_match
    have hdata : (a ++ "\n" ++ b).data = a.data ++ '\n' :: b.data := by
      rw [String.data_append, String.data_append]
      simp
    rw [hdata, firstLine_append_newline]

/-- Model of `pr_production_time(github, deploy_end_time, previous_commit,
commit)`:
iterate the PR numbers yielded for the compared messages, fetch the `created_at` of each
pull request (modelled by `pr_created_at`), accumulate
`deploy_end_time − created_at` in seconds and the count, then return
`total / count` if `count > 0` else `0`. -/
def pr_production_time (pr_created_at : Nat → ℚ) (deploy_end_time : ℚ)
    (messages : List String) : ℚ :=
  let step := fun (acc : ℚ × Nat) (n : Nat) =>
    (acc.1 + (deploy_end_time - pr_created_at n), acc.2 + 1)
  let res := (get_pull_requests_number messages).foldl step (0, 0)
  if res.2 > 0 then res.1 / (res.2 : ℚ) else 0

lemma pr_fold_eq (g : Nat → ℚ) (T : ℚ) (l : List Nat) :
    ∀ (a : ℚ) (k : Nat),
      l.foldl (fun (acc : ℚ × Nat) n => (acc.1 + (T - g n), acc.2 + 1)) (a, k) =
        (a + (l.map fun n => T - g n).sum, k + l.length) := by
  induction l with
  | nil => intro a k; simp
  | cons n rest ih =>
    intro a k
    simp only [List.foldl_cons, List.map_cons, List.sum_cons, List.length_cons, ih]
    rw [Prod.mk.injEq]
    constructor
    · ring
    · omega

/-- C4. Mean correctness: for every deploy end time `T`, every PR metadata
assignment and every message list, `pr_production_time` returns the
arithmetic mean `(Σ (T − tᵢ)) / n` over the creation timestamps `t₁..tₙ` of
the resolved pull requests, and `0` when no pull request is resolved;
negative summands (PR created after deploy end) enter the sum unclamped. -/
theorem pr_production_time_mean (pr_created_at : Nat → ℚ) (T : ℚ)
    (messages : List String) :
    pr_production_time pr_created_at T messages =
      if (get_pull_requests_number messages).map pr_created_at = [] then 0
      else ((((get_pull_requests_number messages).map pr_created_at).map
          fun t => T - t).sum) /
        (((get_pull_requests_number messages).map pr_created_at).length : ℚ) := by
  unfold pr_production_time
  dsimp only
  rw [pr_fold_eq pr_created_at T (get_pull_requests_number messages) 0 0]
  simp only [zero_add, List.map_map, List.length_map, List.map_eq_nil_iff]
  cases h : get_pull_requests_number messages with
  | nil => simp
  | cons n rest =>
    simp only [List.length_cons, gt_iff_lt, Nat.succ_pos, if_true, reduceCtorEq,
      if_false]
    rfl

/-- Model of `staging_production_time(samson, deploy_end_time, git_sha)`:
look up the
earliest staging deploy for the sha (`get_first_deploy(git_sha, False)`); if
found, return `deploy_end_time − updated_at` in seconds, else `0`. -/
def staging_production_time (staging_pages : List (List Deploy))
    (deploy_end_time : ℚ) : ℚ :=
  match get_first_deploy staging_pages with
  | some d => deploy_end_time - d.updated_at
  | none => 0

/-- C6. Staging fallback: if the staging-side earliest-deploy search finds
nothing the result is `0`; if it finds a deploy the result is exactly the
deploy end time minus the `updated_at` of that deploy, in seconds. -/
theorem staging_production_time_spec (staging_pages : List (List Deploy))
    (T : ℚ) :
    (get_first_deploy staging_pages = none →
      staging_production_time staging_pages T = 0) ∧
    (∀ d : Deploy, get_first_deploy staging_pages = some d →
      staging_production_time staging_pages T = T - d.updated_at) := by
  constructor
  · intro h
    unfold staging_production_time
    rw [h]
  · intro d h
    unfold staging_production_time
    rw [h]

/-- Witness for C6: with no staging pages the fallback gives `0`; with the
scenario page `[Jan 2, Jan 1]` the result is `T − updated_at` of the found
(oldest) deploy. -/
theorem staging_production_time_spec_witness :
    staging_production_time [] 100 = 0 ∧
      staging_production_time [[deployJan2, deployJan1]] 1704240000 =
        1704240000 - deployJan1.updated_at :=
  ⟨(staging_production_time_spec [] 100).1 rfl,
    (staging_production_time_spec [[deployJan2, deployJan1]] 1704240000).2
      deployJan1 (by decide)⟩

/-- The error taxonomy raised by `Samson._api` / `Github._api`; each variant
carries the HTTP status and the raw JSON payload. -/
inductive ApiError (α : Type) where
  | unauthorized (status : Nat) (data : α)
  | rateLimitExceeded (status : Nat) (data : α)
  | unexpected (status : Nat) (data : α)
  deriving DecidableEq

/-- Model of the `Samson._api` response handling: `401` raises `UnauthorizedException`
(aborting the run), any other status `≥ 400` raises `UnexpectedException`,
otherwise the JSON payload is returned. -/
def samson_api {α : Type} (status : Nat) (json_output : α) :
    Except (ApiError α) α :=
  if status = 401 then Except.error (ApiError.unauthorized status json_output)
  else if status ≥ 400 then Except.error (ApiError.unexpected status json_output)
  else Except.ok json_output

/-- Model of
`json_output["message"].lower().startswith("api rate limit exceeded")`:
the characters of the message are lower-cased and compared against the
literal
head. -/
def rate_limit_message (msg : String) : Bool :=
  (msg.data.map Char.toLower).take "api rate limit exceeded".data.length ==
    "api rate limit exceeded".data

/-- Model of the `Github._api` response handling: `403` with a payload
message whose
lower-casing starts with `"api rate limit exceeded"` raises
`RateLimitExceededException`, any other status `≥ 400` raises
`UnexpectedException`, otherwise the JSON payload is returned.
`message_of` extracts the `message` field of the payload. -/
def github_api {α : Type} (message_of : α → String) (status : Nat)
    (json_output : α) : Except (ApiError α) α :=
  if status = 403 ∧ rate_limit_message (message_of json_output) = true then
    Except.error (ApiError.rateLimitExceeded status json_output)
  else if status ≥ 400 then Except.error (ApiError.unexpected status json_output)
  else Except.ok json_output

/-- C8. Error classification: tracker status `401` ⇒ `Unauthorized` (the
raised error aborts the run), source-host `403` with a rate-limit message ⇒
`RateLimitExceeded`, any other status `≥ 400` from either API ⇒ `Unexpected`,
and status `< 400` is no error — the payload is returned; every classified
error carries the status and the raw payload. -/
theorem api_error_classification {α : Type} (message_of : α → String)
    (status : Nat) (payload : α) :
    (status = 401 →
      samson_api status payload =
        Except.error (ApiError.unauthorized 401 payload)) ∧
    (status ≥ 400 → status ≠ 401 →
      samson_api status payload =
        Except.error (ApiError.unexpected status payload)) ∧
    (status < 400 → samson_api status payload = Except.ok payload) ∧
    (status = 403 →
      rate_limit_message (message_of payload) = true →
      github_api message_of status payload =
        Except.error (ApiError.rateLimitExceeded 403 payload)) ∧
    (status ≥ 400 →
      ¬(status = 403 ∧ rate_limit_message (message_of payload) = true) →
      github_api message_of status payload =
        Except.error (ApiError.unexpected status payload)) ∧
    (status < 400 → github_api message_of status payload = Except.ok payload) := by
  refine ⟨?_, ?_, ?_, ?_, ?_, ?_⟩
  · intro h
    subst h
    simp [samson_api]
  · intro h400 h401
    unfold samson_api
    rw [if_neg h401, if_pos h400]
  · intro h
    unfold samson_api
    rw [if_neg (by omega), if_neg (by omega)]
  · intro h403 hmsg
    subst h403
    unfold github_api
    rw [if_pos ⟨rfl, hmsg⟩]
  · intro h400 hnot
    unfold github_api
    rw [if_neg hnot, if_pos h400]
  · intro h
    unfold github_api
    have h1 : ¬(status = 403 ∧ rate_limit_message (message_of payload) = true) :=
      fun hc => absurd hc.1 (by omega)
    rw [if_neg h1, if_neg (by omega)]

/-- C8 witness: concrete classifications — tracker `401` ⇒ `Unauthorized`
carrying status and body, tracker `500` ⇒ `Unexpected`, tracker `200` ⇒ the
payload; source-host `403` with a rate-limit message ⇒ `RateLimitExceeded`,
`404` ⇒ `Unexpected`, `200` ⇒ the payload. -/
theorem api_error_classification_witness :
    samson_api 401 "body" = Except.error (ApiError.unauthorized 401 "body") ∧
    samson_api 500 "oops" = Except.error (ApiError.unexpected 500 "oops") ∧
    samson_api 200 "data" = Except.ok "data" ∧
    github_api id 403 "API rate limit exceeded for 1.2.3.4" =
      Except.error
        (ApiError.rateLimitExceeded 403 "API rate limit exceeded for 1.2.3.4") ∧
    github_api id 404 "Not Found" =
      Except.error (ApiError.unexpected 404 "Not Found") ∧
    github_api id 200 "data" = Except.ok "data" :=
  ⟨(api_error_classification id 401 "body").1 rfl,
    (api_error_classification id 500 "oops").2.1 (by omega) (by omega),
    (api_error_classification id 200 "data").2.2.1 (by omega),
    (api_error_classification id 403 "API rate limit exceeded for 1.2.3.4").2.2.2.1
      rfl (by decide),
    (api_error_classification id 404 "Not Found").2.2.2.2.1 (by omega)
      (fun hc => absurd hc.1 (by omega)),
    (api_error_classification id 200 "data").2.2.2.2.2 (by omega)⟩

/-- What one iteration of the generator yields: the result of
`get_first_deploy(commit)` (which the script may find to be `None`), the
`previous_commit` of the deploy, and its `commit`. -/
abbrev QualifyingTriple := Option Deploy × String × String

/-- The commit component of a yielded triple. -/
def triple_commit (t : QualifyingTriple) : String := t.2.2

/-- The inner `for deploy in deploys` loop of
`Samson.get_first_production_deploys_within_date_range`, over one page, with
the dedup cache threaded through.  Mirrors the source line by line:
`created_at < from_date` executes `break` (the rest of the page is abandoned,
the outer loop continues); `to_date < created_at` enters
`while ...: continue`, a busy-wait that never terminates — modelled as a
`none` second component (everything yielded before it is kept); a commit
already in the cache, an empty `previous_commit`, or
`previous_commit == commit` executes `continue`; otherwise the triple is
yielded and the commit inserted into the cache. -/
def process_page (from_date to_date : ℚ)
    (sha_pages : String → List (List Deploy)) :
    List Deploy → List String → List QualifyingTriple × Option (List String)
  | [], cache => ([], some cache)
  | d :: rest, cache =>
    if d.created_at < from_date then ([], some cache)
    else if to_date < d.created_at then ([], none)
    else if d.commit ∈ cache ∨ d.previous_commit = "" ∨
        d.previous_commit = d.commit then
      process_page from_date to_date sha_pages rest cache
    else
      let res := process_page from_date to_date sha_pages rest (d.commit :: cache)
      ((get_first_deploy (sha_pages d.commit), d.previous_commit, d.commit) ::
          res.1,
        res.2)

/-- The outer `while deploys:` loop of the generator: pages of the
production-deploy feed are consumed until an empty page; the `Bool` is `true`
iff the walk ran to completion (no busy-wait was entered). -/
def date_range_walk (from_date to_date : ℚ)
    (sha_pages : String → List (List Deploy)) :
    List (List Deploy) → List String → List QualifyingTriple × Bool
  | [], _ => ([], true)
  | p :: rest, cache =>
    if p.isEmpty then ([], true)
    else
      let res := process_page from_date to_date sha_pages p cache
      match res.2 with
      | none => (res.1, false)
      | some cache' =>
        let rest_res := date_range_walk from_date to_date sha_pages rest cache'
        (res.1 ++ rest_res.1, rest_res.2)

/-- Model of `Samson.get_first_production_deploys_within_date_range(from_date,
to_date)`: the full generator, starting from page 1 with an empty
`commit_cache`. -/
def get_first_production_deploys_within_date_range (from_date to_date : ℚ)
    (sha_pages : String → List (List Deploy))
    (prod_pages : List (List Deploy)) : List QualifyingTriple × Bool :=
  date_range_walk from_date to_date sha_pages prod_pages []

/-- One CSV row written by `main` (minus the header): deploy id, commit, and
the two cycle times. -/
structure CycleTimeRecord where
  deploy_id : Nat
  commit : String
  pr_to_prod_seconds : ℚ
  staging_to_prod_seconds : ℚ
  deriving DecidableEq

/-- The loop body of `main` for one yielded triple: `deploy_end_time` is
the `updated_at` of the yielded deploy, and both cycle times are computed
from it;
a `None` deploy makes `first_production_deploy["updated_at"]` raise, aborting
the run — modelled as `none`. -/
def to_record (pr_created_at : Nat → ℚ)
    (staging_pages : String → List (List Deploy))
    (compare_messages : String → String → List String) :
    QualifyingTriple → Option CycleTimeRecord
  | (none, _, _) => none
  | (some fpd, previous_commit, commit) =>
    some ⟨fpd.id, commit,
      pr_production_time pr_created_at fpd.updated_at
        (compare_messages previous_commit commit),
      staging_production_time (staging_pages commit) fpd.updated_at⟩

/-- Consumption of the generator by `main`: rows are written one per yielded
triple until the generator is exhausted, hangs (`ok = false`), or a `None`
deploy aborts the run. -/
def emit_records (pr_created_at : Nat → ℚ)
    (staging_pages : String → List (List Deploy))
    (compare_messages : String → String → List String) :
    List QualifyingTriple → Bool → List CycleTimeRecord × Bool
  | [], ok => ([], ok)
  | t :: rest, ok =>
    match to_record pr_created_at staging_pages compare_messages t with
    | none => ([], false)
    | some r =>
      let res := emit_records pr_created_at staging_pages compare_messages rest ok
      (r :: res.1, res.2)

/-- Model of `main(**kwargs)`: walk the dated production feed and write one
`CycleTimeRecord` per yielded triple; the `Bool` is `true` iff the run
completed normally. -/
def main_run (from_date to_date : ℚ)
    (sha_pages staging_pages : String → List (List Deploy))
    (pr_created_at : Nat → ℚ)
    (compare_messages : String → String → List String)
    (prod_pages : List (List Deploy)) : List CycleTimeRecord × Bool :=
  let w := get_first_production_deploys_within_date_range from_date to_date
    sha_pages prod_pages
  emit_records pr_created_at staging_pages compare_messages w.1 w.2

lemma process_page_nil (fd td : ℚ) (sp : String → List (List Deploy))
    (cache : List String) : process_page fd td sp [] cache = ([], some cache) :=
  rfl

lemma process_page_cons (fd td : ℚ) (sp : String → List (List Deploy))
    (d : Deploy) (rest : List Deploy) (cache : List String) :
    process_page fd td sp (d :: rest) cache =
      if d.created_at < fd then ([], some cache)
      else if td < d.created_at then ([], none)
      else if d.commit ∈ cache ∨ d.previous_commit = "" ∨
          d.previous_commit = d.commit then
        process_page fd td sp rest cache
      else
        ((get_first_deploy (sp d.commit), d.previous_commit, d.commit) ::
            (process_page fd td sp rest (d.commit :: cache)).1,
          (process_page fd td sp rest (d.commit :: cache)).2) :=
  rfl

lemma date_range_walk_nil (fd td : ℚ) (sp : String → List (List Deploy))
    (cache : List String) : date_range_walk fd td sp [] cache = ([], true) :=
  rfl

lemma date_range_walk_cons (fd td : ℚ) (sp : String → List (List Deploy))
    (p : List Deploy) (rest : List (List Deploy)) (cache : List String) :
    date_range_walk fd td sp (p :: rest) cache =
      if p.isEmpty then ([], true)
      else
        match (process_page fd td sp p cache).2 with
        | none => ((process_page fd td sp p cache).1, false)
        | some cache' =>
          ((process_page fd td sp p cache).1 ++
              (date_range_walk fd td sp rest cache').1,
            (date_range_walk fd td sp rest cache').2) :=
  rfl

lemma process_page_cache_eq (fd td : ℚ) (sp : String → List (List Deploy)) :
    ∀ (ds : List Deploy) (cache cache' : List String),
      (process_page fd td sp ds cache).2 = some cache' →
      cache' =
        ((process_page fd td sp ds cache).1.map triple_commit).reverse ++ cache := by
  intro ds
  induction ds with
  | nil =>
    intro cache cache' h
    rw [process_page_nil] at h ⊢
    simp only [Option.some.injEq] at h
    simp [h]
  | cons d rest ih =>
    intro cache cache' h
    rw [process_page_cons] at h ⊢
    by_cases h1 : d.created_at < fd
    · rw [if_pos h1] at h ⊢
      simp only [Option.some.injEq] at h
      simp [h]
    · rw [if_neg h1] at h ⊢
      by_cases h2 : td < d.created_at
      · rw [if_pos h2] at h
        simp at h
      · rw [if_neg h2] at h ⊢
        by_cases h3 : d.commit ∈ cache ∨ d.previous_commit = "" ∨
            d.previous_commit = d.commit
        · rw [if_pos h3] at h ⊢
          exact ih cache cache' h
        · rw [if_neg h3] at h ⊢
          have hh := ih (d.commit :: cache) cache' h
          rw [hh]
          simp [triple_commit, List.reverse_cons]
  
lemma process_page_commits (fd td : ℚ) (sp : String → List (List Deploy)) :
    ∀ (ds : List Deploy) (cache : List String),
      ((process_page fd td sp ds cache).1.map triple_commit).Nodup ∧
        ∀ c ∈ (process_page fd td sp ds cache).1.map triple_commit, c ∉ cache := by
  intro ds
  induction ds with
  | nil =>
    intro cache
    rw [process_page_nil]
    simp
  | cons d rest ih =>
    intro cache
    rw [process_page_cons]
    by_cases h1 : d.created_at < fd
    · rw [if_pos h1]; simp
    · rw [if_neg h1]
      by_cases h2 : td < d.created_at
      · rw [if_pos h2]; simp
      · rw [if_neg h2]
        by_cases h3 : d.commit ∈ cache ∨ d.previous_commit = "" ∨
            d.previous_commit = d.commit
        · rw [if_pos h3]; exact ih cache
        · rw [if_neg h3]
          push_neg at h3
          obtain ⟨hmem, _, _⟩ := h3
          have hih := ih (d.commit :: cache)
          constructor
          · simp only [List.map_cons]
            rw [List.nodup_cons]
            refine ⟨?_, hih.1⟩
            intro hcon
            have hfresh := hih.2 _ hcon
            exact hfresh (List.mem_cons_self _ _)
          · intro c hc
            simp only [List.map_cons, List.mem_cons] at hc
            rcases hc with hc | hc
            · rw [hc]; exact hmem
            · intro hccache
              exact hih.2 c hc (List.mem_cons_of_mem _ hccache)

lemma process_page_deploy (fd td : ℚ) (sp : String → List (List Deploy)) :
    ∀ (ds : List Deploy) (cache : List String) (tr : QualifyingTriple),
      tr ∈ (process_page fd td sp ds cache).1 →
      tr.1 = get_first_deploy (sp (triple_commit tr)) := by
  intro ds
  induction ds with
  | nil =>
    intro cache tr h
    rw [process_page_nil] at h
    simp at h
  | cons d rest ih =>
    intro cache tr h
    rw [process_page_cons] at h
    split_ifs at h with h1 h2 h3
    · simp at h
    · simp at h
    · exact ih cache tr h
    · simp only [List.mem_cons] at h
      rcases h with h | h
      · subst h; rfl
      · exact ih (d.commit :: cache) tr h

lemma process_page_previous (fd td : ℚ) (sp : String → List (List Deploy)) :
    ∀ (ds : List Deploy) (cache : List String) (tr : QualifyingTriple),
      tr ∈ (process_page fd td sp ds cache).1 →
      tr.2.1 ≠ "" ∧ tr.2.1 ≠ tr.2.2 := by
  intro ds
  induction ds with
  | nil =>
    intro cache tr h
    rw [process_page_nil] at h
    simp at h
  | cons d rest ih =>
    intro cache tr h
    rw [process_page_cons] at h
    split_ifs at h with h1 h2 h3
    · simp at h
    · simp at h
    · exact ih cache tr h
    · simp only [List.mem_cons] at h
      rcases h with h | h
      · subst h
        push_neg at h3
        exact ⟨h3.2.1, h3.2.2⟩
      · exact ih (d.commit :: cache) tr h

lemma date_range_walk_commits (fd td : ℚ) (sp : String → List (List Deploy)) :
    ∀ (pages : List (List Deploy)) (cache : List String),
      ((date_range_walk fd td sp pages cache).1.map triple_commit).Nodup ∧
        ∀ c ∈ (date_range_walk fd td sp pages cache).1.map triple_commit,
          c ∉ cache := by
  intro pages
  induction pages with
  | nil =>
    intro cache
    rw [date_range_walk_nil]
    simp
  | cons p rest ih =>
    intro cache
    rw [date_range_walk_cons]
    by_cases hp : p.isEmpty
    · rw [if_pos hp]; simp
    · rw [if_neg hp]
      cases hpp : (process_page fd td sp p cache).2 with
      | none => exact process_page_commits fd td sp p cache
      | some cache' =>
        have hpc := process_page_commits fd td sp p cache
        have hcache := process_page_cache_eq fd td sp p cache cache' hpp
        have hih := ih cache'
        constructor
        · show (((process_page fd td sp p cache).1 ++
              (date_range_walk fd td sp rest cache').1).map triple_commit).Nodup
          rw [List.map_append, List.nodup_append]
          refine ⟨hpc.1, hih.1, ?_⟩
          intro a ha hb
          have ha' : a ∈ cache' := by
            rw [hcache]
            exact List.mem_append_left _ (List.mem_reverse.mpr ha)
          exact hih.2 a hb ha'
        · show ∀ c ∈ ((process_page fd td sp p cache).1 ++
              (date_range_walk fd td sp rest cache').1).map triple_commit,
            c ∉ cache
          intro c hc
          rw [List.map_append, List.mem_append] at hc
          rcases hc with hc | hc
          · exact hpc.2 c hc
          · intro hcc
            apply hih.2 c hc
            rw [hcache]
            exact List.mem_append_right _ hcc

lemma date_range_walk_deploy (fd td : ℚ) (sp : String → List (List Deploy)) :
    ∀ (pages : List (List Deploy)) (cache : List String) (tr : QualifyingTriple),
      tr ∈ (date_range_walk fd td sp pages cache).1 →
      tr.1 = get_first_deploy (sp (triple_commit tr)) := by
  intro pages
  induction pages with
  | nil =>
    intro cache tr h
    rw [date_range_walk_nil] at h
    simp at h
  | cons p rest ih =>
    intro cache tr h
    rw [date_range_walk_cons] at h
    by_cases hp : p.isEmpty
    · rw [if_pos hp] at h
      simp at h
    · rw [if_neg hp] at h
      revert h
      cases hpp : (process_page fd td sp p cache).2 with
      | none =>
        intro h
        exact process_page_deploy fd td sp p cache tr h
      | some cache' =>
        intro h
        have h' : tr ∈ (process_page fd td sp p cache).1 ++
            (date_range_walk fd td sp rest cache').1 := h
        rw [List.mem_append] at h'
        rcases h' with h' | h'
        · exact process_page_deploy fd td sp p cache tr h'
        · exact ih cache' tr h'

lemma date_range_walk_previous (fd td : ℚ) (sp : String → List (List Deploy)) :
    ∀ (pages : List (List Deploy)) (cache : List String) (tr : QualifyingTriple),
      tr ∈ (date_range_walk fd td sp pages cache).1 →
      tr.2.1 ≠ "" ∧ tr.2.1 ≠ tr.2.2 := by
  intro pages
  induction pages with
  | nil =>
    intro cache tr h
    rw [date_range_walk_nil] at h
    simp at h
  | cons p rest ih =>
    intro cache tr h
    rw [date_range_walk_cons] at h
    by_cases hp : p.isEmpty
    · rw [if_pos hp] at h
      simp at h
    · rw [if_neg hp] at h
      revert h
      cases hpp : (process_page fd td sp p cache).2 with
      | none =>
        intro h
        exact process_page_previous fd td sp p cache tr h
      | some cache' =>
        intro h
        have h' : tr ∈ (process_page fd td sp p cache).1 ++
            (date_range_walk fd td sp rest cache').1 := h
        rw [List.mem_append] at h'
        rcases h' with h' | h'
        · exact process_page_previous fd td sp p cache tr h'
        · exact ih cache' tr h'

lemma to_record_commit (pr : Nat → ℚ) (sp : String → List (List Deploy))
    (cm : String → String → List String) (t : QualifyingTriple)
    (r : CycleTimeRecord) (h : to_record pr sp cm t = some r) :
    r.commit = triple_commit t := by
  obtain ⟨od, pc, c⟩ := t
  cases od with
  | none => simp [to_record] at h
  | some fpd =>
    simp only [to_record, Option.some.injEq] at h
    rw [← h]
    rfl

lemma emit_records_sublist (pr : Nat → ℚ) (sp : String → List (List Deploy))
    (cm : String → String → List String) :
    ∀ (ts : List QualifyingTriple) (ok : Bool),
      List.Sublist ((emit_records pr sp cm ts ok).1.map CycleTimeRecord.commit)
        (ts.map triple_commit) := by
  intro ts
  induction ts with
  | nil => intro ok; simp [emit_records]
  | cons t rest ih =>
    intro ok
    rw [emit_records]
    cases hrec : to_record pr sp cm t with
    | none => exact List.nil_sublist _
    | some r =>
      show List.Sublist
        ((r :: (emit_records pr sp cm rest ok).1).map CycleTimeRecord.commit)
        ((t :: rest).map triple_commit)
      rw [List.map_cons, List.map_cons, to_record_commit pr sp cm t r hrec]
      exact List.Sublist.cons₂ _ (ih ok)

lemma emit_records_member (pr : Nat → ℚ) (sp : String → List (List Deploy))
    (cm : String → String → List String) :
    ∀ (ts : List QualifyingTriple) (ok : Bool) (r : CycleTimeRecord),
      r ∈ (emit_records pr sp cm ts ok).1 →
      ∃ tr, tr ∈ ts ∧ to_record pr sp cm tr = some r := by
  intro ts
  induction ts with
  | nil =>
    intro ok r h
    simp [emit_records] at h
  | cons t rest ih =>
    intro ok r h
    rw [emit_records] at h
    revert h
    cases hrec : to_record pr sp cm t with
    | none =>
      intro h
      simp at h
    | some r' =>
      intro h
      have h' : r ∈ r' :: (emit_records pr sp cm rest ok).1 := h
      rw [List.mem_cons] at h'
      rcases h' with h' | h'
      · exact ⟨t, List.mem_cons_self _ _, by rw [hrec, h']⟩
      · obtain ⟨tr, htr, hto⟩ := ih ok r h'
        exact ⟨tr, List.mem_cons_of_mem _ htr, hto⟩

/-- C1. Dedup invariant: over any run — any production feed, any per-commit
search results, any PR metadata, any compare results — no commit value
appears in more than one emitted `CycleTimeRecord`: the generator consults
the dedup cache before processing the commit of a deploy and inserts it
when it decides to process it, so the commit column of the emitted rows is
duplicate-free. -/
theorem dedup_no_repeated_commit (from_date to_date : ℚ)
    (sha_pages staging_pages : String → List (List Deploy))
    (pr_created_at : Nat → ℚ)
    (compare_messages : String → String → List String)
    (prod_pages : List (List Deploy)) :
    ((main_run from_date to_date sha_pages staging_pages pr_created_at
        compare_messages prod_pages).1.map CycleTimeRecord.commit).Nodup := by
  have hw := date_range_walk_commits from_date to_date sha_pages prod_pages []
  have hs := emit_records_sublist pr_created_at staging_pages compare_messages
    (date_range_walk from_date to_date sha_pages prod_pages []).1
    (date_range_walk from_date to_date sha_pages prod_pages []).2
  exact hw.1.sublist hs

/-- C7. Skip rule: every pair the generator yields has a non-empty
`previous_commit` different from its `commit`; a deploy with empty or
self-identical `previous_commit` hits `continue` and never yields, so no
record is ever emitted for it. -/
theorem skip_rule_no_yield (from_date to_date : ℚ)
    (sha_pages : String → List (List Deploy))
    (prod_pages : List (List Deploy)) :
    ∀ tr ∈ (get_first_production_deploys_within_date_range from_date to_date
        sha_pages prod_pages).1,
      tr.2.1 ≠ "" ∧ tr.2.1 ≠ tr.2.2 := fun tr htr =>
  date_range_walk_previous from_date to_date sha_pages prod_pages [] tr htr

/-- Example run for C7/C9: the production feed contains one deploy of commit
`"c"` (id 1, newest), while the per-commit search for `"c"` also knows an
older production deploy of the same commit (id 2). -/
def deployNewer : Deploy := ⟨1, "c", "p", 5, 50⟩

def deployOlder : Deploy := ⟨2, "c", "p", 1, 10⟩

def sha_pages_ex : String → List (List Deploy) := fun s =>
  if s = "c" then [[deployNewer, deployOlder]] else []

/-- Witness for C7: in the example run a triple is yielded, and its
`previous_commit` is non-empty and differs from its `commit`. -/
theorem skip_rule_no_yield_witness :
    ((some deployOlder, "p", "c") : QualifyingTriple) ∈
        (get_first_production_deploys_within_date_range 0 10 sha_pages_ex
          [[deployNewer]]).1 ∧
      (((some deployOlder, "p", "c") : QualifyingTriple).2.1 ≠ "" ∧
        ((some deployOlder, "p", "c") : QualifyingTriple).2.1 ≠
          ((some deployOlder, "p", "c") : QualifyingTriple).2.2) := by
  have hmem : ((some deployOlder, "p", "c") : QualifyingTriple) ∈
      (get_first_production_deploys_within_date_range 0 10 sha_pages_ex
        [[deployNewer]]).1 := by decide
  exact ⟨hmem,
    skip_rule_no_yield 0 10 sha_pages_ex [[deployNewer]] _ hmem⟩

/-- Deploys for C2: one too new for the range `[0, 10]`, one inside it, one
too old. -/
def deployTooNew : Deploy := ⟨3, "h", "q", 20, 21⟩

def deployInRange : Deploy := ⟨4, "i", "r", 5, 6⟩

def deployTooOld : Deploy := ⟨5, "o", "s", -5, -4⟩

/-- C2 (code bug). Date-range filtering: the code does not skip an
out-of-range deploy.  When `to_date < created_at` it executes
`while kwargs["to_date"] < created_at: continue`, an infinite busy-wait
(`created_at` never changes), so with range `[0, 10]` and the single page
`[too-new (20), in-range (5)]` the run emits nothing and never terminates
(completion flag `false`).  When `created_at < from_date` it executes
`break`, abandoning the remainder of the page, so with the single page
`[too-old (−5), in-range (5)]` the walk completes but the in-range deploy —
which per the claim should proceed to the dedup/previous-commit checks and
would qualify — is never processed and nothing is yielded. -/
theorem date_filter_divergence :
    get_first_production_deploys_within_date_range 0 10 (fun _ => [])
        [[deployTooNew, deployInRange]] = ([], false) ∧
      get_first_production_deploys_within_date_range 0 10 (fun _ => [])
        [[deployTooOld, deployInRange]] = ([], true) := by
  decide

/-- C9 counterexample: in the example run the only page-walk entry is
`deployNewer` (id 1, `updated_at` 50), yet the deploy bound to the yielded
pair is the re-queried earliest production deploy `deployOlder` (id 2), and
the `deploy_id` of the emitted record is 2 with both cycle times computed
from `updated_at` 10 — not the id and `updated_at` of the originating
page-walk entry. -/
theorem driver_binding_counterexample :
    (get_first_production_deploys_within_date_range 0 10 sha_pages_ex
        [[deployNewer]]).1 = [(some deployOlder, "p", "c")] ∧
      (main_run 0 10 sha_pages_ex (fun _ => []) (fun _ => 0) (fun _ _ => [])
        [[deployNewer]]).1 = [⟨2, "c", 0, 0⟩] ∧
      deployNewer.id = 1 ∧ deployOlder.id = 2 ∧
      deployNewer.updated_at = 50 ∧ deployOlder.updated_at = 10 := by
  decide

/-- C9 (amended). Driver binding: for every emitted `CycleTimeRecord` there
is a qualifying pair `(previous_commit, commit)` yielded by the date-range
walk whose bound deploy is the deploy returned by the earliest-deploy search
for that commit (`get_first_deploy`, which need not be the page-walk entry
that produced the pair), and the `deploy_id` of the record and the
`deployEndTime` used for both cycle-time computations are the `id` and
`updated_at` of that deploy. -/
theorem driver_binding_to_earliest (from_date to_date : ℚ)
    (sha_pages staging_pages : String → List (List Deploy))
    (pr_created_at : Nat → ℚ)
    (compare_messages : String → String → List String)
    (prod_pages : List (List Deploy)) :
    ∀ r ∈ (main_run from_date to_date sha_pages staging_pages pr_created_at
        compare_messages prod_pages).1,
      ∃ d previous_commit commit,
        get_first_deploy (sha_pages commit) = some d ∧
        ((some d, previous_commit, commit) : QualifyingTriple) ∈
          (get_first_production_deploys_within_date_range from_date to_date
            sha_pages prod_pages).1 ∧
        r = ⟨d.id, commit,
          pr_production_time pr_created_at d.updated_at
            (compare_messages previous_commit commit),
          staging_production_time (staging_pages commit) d.updated_at⟩ := by
  intro r hr
  obtain ⟨tr, htr, hrec⟩ := emit_records_member pr_created_at staging_pages
    compare_messages
    (date_range_walk from_date to_date sha_pages prod_pages []).1
    (date_range_walk from_date to_date sha_pages prod_pages []).2 r hr
  obtain ⟨od, pc, c⟩ := tr
  cases od with
  | none => simp [to_record] at hrec
  | some fpd =>
    have hfst := date_range_walk_deploy from_date to_date sha_pages prod_pages
      [] (some fpd, pc, c) htr
    simp only [to_record, Option.some.injEq] at hrec
    exact ⟨fpd, pc, c, hfst.symm, htr, hrec.symm⟩

/-- Witness for the amended C9 at the example run: the record
`⟨2, "c", 0, 0⟩` is emitted and decomposes as required. -/
theorem driver_binding_to_earliest_witness :
    ∃ d previous_commit commit,
      get_first_deploy (sha_pages_ex commit) = some d ∧
      ((some d, previous_commit, commit) : QualifyingTriple) ∈
        (get_first_production_deploys_within_date_range 0 10 sha_pages_ex
          [[deployNewer]]).1 ∧
      (⟨2, "c", 0, 0⟩ : CycleTimeRecord) = ⟨d.id, commit,
        pr_production_time (fun _ => 0) d.updated_at
          ((fun _ _ => ([] : List String)) previous_commit commit),
        staging_production_time ((fun _ => ([] : List (List Deploy))) commit)
          d.updated_at⟩ :=
  driver_binding_to_earliest 0 10 sha_pages_ex (fun _ => []) (fun _ => 0)
    (fun _ _ => []) [[deployNewer]] ⟨2, "c", 0, 0⟩ (by decide)
